import Mathlib

/-!
Verification of the NEXUS validator core (nexus-highlighter).

The definitions below are a shallow embedding of the validator source:
the comment/quote scanner (`validateComments`), the sequence-cleaning
pass (`Sequence._clean`, here `cleanSeq`), the header metadata regexes
(`NTAX`/`NCHAR`), the `MATRIX` block parser (`NexusParser.parse`, here
`parseNexus`) and the orchestrating `validateNexus`.  Document text is
modelled as a `List Char` with LF line endings; positions follow the
host position index (`positionAt`: line = number of line feeds before
the offset, character = offset within the line).  The one fallible host
call, `Position.translate(0, -1)` on a column-0 position, is modelled
by `Except` (the host throws on a negative column).
-/

namespace NexusHL

/-- Line/column coordinate, mirroring the host `Position`. -/
structure Pos where
  line : Nat
  character : Nat
deriving DecidableEq

/-- Half-open text range between two positions, mirroring the host `Range`. -/
structure TextRange where
  start : Pos
  stop : Pos
deriving DecidableEq

/-- Diagnostic severity; the source uses only `Error` and `Warning`. -/
inductive Severity where
  | error
  | warning
deriving DecidableEq

/-- A diagnostic triple, mirroring the host `Diagnostic`. -/
structure Diagnostic where
  range : TextRange
  message : String
  severity : Severity
deriving DecidableEq

/-- The JavaScript regex class backslash-s (whitespace), which is also the
character class removed by the final whitespace strip in the cleaner. -/
def isJsSpace (c : Char) : Bool :=
  c == ' ' || c == '\t' || c == '\n' || c == '\r' ||
  c.val == 11 || c.val == 12 || c.val == 0xa0 || c.val == 0x1680 ||
  (0x2000 ≤ c.val && c.val ≤ 0x200a) || c.val == 0x2028 || c.val == 0x2029 ||
  c.val == 0x202f || c.val == 0x205f || c.val == 0x3000 || c.val == 0xfeff

/-- The JavaScript regex class backslash-w (word characters), used for the
word boundaries in the header and MATRIX keyword patterns. -/
def isWordChar (c : Char) : Bool :=
  c.isAlphanum || c == '_'

/-- `positionAt`: the host maps a character offset to line/column; lines are
separated by line feeds, the column is the distance from the line start. -/
def posAt (text : List Char) (off : Nat) : Pos :=
  ⟨(text.take off).count '\n',
   ((text.take off).reverse.takeWhile (fun c => !(c == '\n'))).length⟩

/-- Result of the single pass of the bracket/quote scanner in
`validateComments`: offsets of unmatched closing brackets in encounter
order, the stack of still-open bracket offsets (outermost first), and the
in-quote flag at end of text. -/
structure ScanOut where
  closes : List Nat
  stack : List Nat
  inQuote : Bool
deriving DecidableEq

/-- The character loop of `validateComments`: single quotes toggle quote
state (a doubled quote inside a quote is an escape and is skipped), all
bracket handling is suppressed inside quotes, `[` pushes its offset, `]`
pops or — at empty stack — records an unexpected-close offset. -/
def scanGo (s : List Char) (i : Nat) (inQ : Bool) (stack : List Nat)
    (closes : List Nat) : ScanOut :=
  match s with
  | [] => ⟨closes, stack, inQ⟩
  | c :: rest =>
    if c = '\x27' then
      if inQ then
        match rest with
        | c2 :: rest2 =>
          if c2 = '\x27' then scanGo rest2 (i + 2) true stack closes
          else scanGo (c2 :: rest2) (i + 1) false stack closes
        | [] => scanGo [] (i + 1) false stack closes
      else scanGo rest (i + 1) true stack closes
    else if inQ then scanGo rest (i + 1) inQ stack closes
    else if c = '[' then scanGo rest (i + 1) inQ (stack ++ [i]) closes
    else if c = ']' then
      match stack with
      | [] => scanGo rest (i + 1) inQ [] (closes ++ [i])
      | _ :: _ => scanGo rest (i + 1) inQ stack.dropLast closes
    else scanGo rest (i + 1) inQ stack closes

/-- The scanner run over a whole document, starting outside quotes with an
empty stack, as `validateComments` does. -/
def scanComments (text : List Char) : ScanOut :=
  scanGo text 0 false [] []

/-- The character loop of `Sequence._clean`: quotes are handled first (an
escaped doubled quote inside a quote emits one literal quote and does not
toggle the flag; a toggling quote is itself emitted when at comment depth
zero), brackets adjust the comment depth outside quotes and are dropped,
and any other character is kept exactly when the depth is zero. -/
def cleanGo (s : List Char) (inQ : Bool) (stack : Nat) : List Char :=
  match s with
  | [] => []
  | c :: rest =>
    if c = '\x27' then
      if inQ then
        match rest with
        | c2 :: rest2 =>
          if c2 = '\x27' then
            (if stack = 0 then ['\x27'] else []) ++ cleanGo rest2 true stack
          else
            (if stack = 0 then ['\x27'] else []) ++ cleanGo (c2 :: rest2) false stack
        | [] => (if stack = 0 then ['\x27'] else []) ++ cleanGo [] false stack
      else (if stack = 0 then ['\x27'] else []) ++ cleanGo rest true stack
    else if inQ then
      if stack = 0 then c :: cleanGo rest inQ stack else cleanGo rest inQ stack
    else if c = '[' then cleanGo rest inQ (stack + 1)
    else if c = ']' then cleanGo rest inQ (stack - 1)
    else if stack = 0 then c :: cleanGo rest inQ stack
    else cleanGo rest inQ stack

/-- `Sequence._clean`: the stack-based stripping loop followed by the final
removal of all whitespace. -/
def cleanSeq (s : List Char) : List Char :=
  (cleanGo s false 0).filter (fun c => !isJsSpace c)

/-- Digits of a decimal literal to the number it denotes (`parseInt`). -/
def natOfDigits (ds : List Char) : Nat :=
  ds.foldl (fun a c => a * 10 + (c.toNat - '0'.toNat)) 0

/-- Case-insensitive match of an (uppercase ASCII) keyword at the head of a
string, returning the remainder; the `i` flag of the source regexes. -/
def matchCI (kw : List Char) (s : List Char) : Option (List Char) :=
  match kw, s with
  | [], s => some s
  | _ :: _, [] => none
  | k :: ks, c :: cs => if c.toUpper == k then matchCI ks cs else none

/-- The tail of the header patterns, keyword then optional whitespace, an
equals sign, optional whitespace and one or more digits (greedy): returns
the total matched length and the captured number. -/
def keyEqNum (kw : List Char) (s : List Char) : Option (Nat × Nat) :=
  match matchCI kw s with
  | none => none
  | some r1 =>
    let w1 := r1.takeWhile isJsSpace
    match r1.drop w1.length with
    | '=' :: r3 =>
      let w2 := r3.takeWhile isJsSpace
      let ds := (r3.drop w2.length).takeWhile Char.isDigit
      if ds.isEmpty then none
      else some (kw.length + w1.length + 1 + w2.length + ds.length, natOfDigits ds)
    | _ => none

/-- Leftmost match of a word-boundary-anchored `KEYWORD = digits` pattern:
the scan tries each offset whose preceding character is not a word
character, exactly as the regex engine advances on a failed tail.  Returns
match offset, match length and captured value. -/
def findKeyNumGo (kw : List Char) (s : List Char) (i : Nat) (prevWord : Bool) :
    Option (Nat × Nat × Nat) :=
  match s with
  | [] => none
  | c :: rest =>
    if prevWord = false then
      match keyEqNum kw (c :: rest) with
      | some (len, v) => some (i, len, v)
      | none => findKeyNumGo kw rest (i + 1) (isWordChar c)
    else findKeyNumGo kw rest (i + 1) (isWordChar c)

/-- First match of the NTAX header pattern over the document. -/
def findNtaxM (text : List Char) : Option (Nat × Nat × Nat) :=
  findKeyNumGo ['N', 'T', 'A', 'X'] text 0 false

/-- First match of the NCHAR header pattern over the document. -/
def findNcharM (text : List Char) : Option (Nat × Nat × Nat) :=
  findKeyNumGo ['N', 'C', 'H', 'A', 'R'] text 0 false

/-- Offset of the first semicolon, the terminator of the MATRIX block. -/
def firstSemi (s : List Char) : Option Nat :=
  match s with
  | [] => none
  | c :: rest => if c = ';' then some 0 else (firstSemi rest).map (· + 1)

/-- Leading and trailing whitespace removal, the effect of the greedy
whitespace runs around the lazy capture group of the MATRIX regex. -/
def trimJs (l : List Char) : List Char :=
  ((l.dropWhile isJsSpace).reverse.dropWhile isJsSpace).reverse

/-- First offset at which `sub` occurs in `l` (`String.indexOf`). -/
def indexOfSub (sub : List Char) (l : List Char) : Option Nat :=
  if sub.isPrefixOf l then some 0
  else
    match l with
    | [] => none
    | _ :: t => (indexOfSub sub t).map (· + 1)

/-- Leftmost match of the MATRIX block pattern: a word-bounded,
case-insensitive `MATRIX` keyword followed (after greedy whitespace and a
lazy body) by the first semicolon.  Mirrors the source's recovery of the
capture's offset through `match[0].indexOf(match[1])`.  Returns the
content start offset and the captured body. -/
def findMatrixGo (s : List Char) (i : Nat) (prevWord : Bool) :
    Option (Nat × List Char) :=
  match s with
  | [] => none
  | c :: rest =>
    if prevWord = false then
      match matchCI ['M', 'A', 'T', 'R', 'I', 'X'] (c :: rest) with
      | some r =>
        if (match r.head? with | none => true | some c2 => !isWordChar c2) then
          match firstSemi r with
          | some sc =>
            let cap := trimJs (r.take sc)
            let m0 := (c :: rest).take (6 + sc + 1)
            some (i + (indexOfSub cap m0).getD 0, cap)
          | none => findMatrixGo rest (i + 1) (isWordChar c)
        else findMatrixGo rest (i + 1) (isWordChar c)
      | none => findMatrixGo rest (i + 1) (isWordChar c)
    else findMatrixGo rest (i + 1) (isWordChar c)

/-- First match of the MATRIX block pattern over the document. -/
def findMatrixM (text : List Char) : Option (Nat × List Char) :=
  findMatrixGo text 0 false

/-- A taxon: name, accumulated cleaned sequence characters (the `bases`
array of `Sequence`), and the line range stored for diagnostics. -/
structure Taxon where
  name : List Char
  bases : List Char
  lineRange : TextRange
deriving DecidableEq

/-- The `Nexus` taxa map, as an insertion-ordered association list (host
`Map` iteration follows insertion order).  `addTaxon` appends the new
sequence to an existing same-named entry — leaving its stored range
untouched — or inserts a fresh entry at the end. -/
def addTaxon (taxa : List Taxon) (t : Taxon) : List Taxon :=
  if taxa.any (fun u => u.name == t.name) then
    taxa.map (fun u =>
      if u.name == t.name then ⟨u.name, u.bases ++ t.bases, u.lineRange⟩ else u)
  else taxa ++ [t]

/-- `Nexus.maxSequenceLength`: the running-maximum loop over all taxa. -/
def maxSeqLen (taxa : List Taxon) : Nat :=
  taxa.foldl (fun m t => if t.bases.length > m then t.bases.length else m) 0

/-- The row pattern: after optional leading whitespace, either a
single-quoted label (one or more non-quote characters) followed by at
least one whitespace character, or — when that alternative fails — a
maximal non-whitespace token followed by at least one whitespace
character; the captured sequence text is the rest of the line after the
greedy whitespace run. -/
def simpleNameRow (rest : List Char) : Option (List Char × List Char) :=
  let tok := rest.takeWhile (fun c => !isJsSpace c)
  let after := rest.drop tok.length
  if tok.isEmpty || after.isEmpty then none
  else some (tok, after.dropWhile isJsSpace)

/-- Matching one matrix line against the row regex; returns the taxon name
(with the quotes of a quoted label stripped) and the raw sequence text. -/
def rowMatch (line : List Char) : Option (List Char × List Char) :=
  let rest := line.dropWhile isJsSpace
  match rest with
  | [] => none
  | q :: t =>
    if q = '\x27' then
      let content := t.takeWhile (fun c => !(c == '\x27'))
      match t.drop content.length with
      | _ :: u2 =>
        if content.isEmpty then simpleNameRow rest
        else
          match u2 with
          | a :: _ =>
            if isJsSpace a then some (content, u2.dropWhile isJsSpace)
            else simpleNameRow rest
          | [] => simpleNameRow rest
      | [] => simpleNameRow rest
    else simpleNameRow rest

/-- The host line range for line `i`, start of line to end of its text. -/
def lineRangeAt (i : Nat) (line : List Char) : TextRange :=
  ⟨⟨i, 0⟩, ⟨i, line.length⟩⟩

/-- One iteration of the parser's line loop: skip blank lines, lines whose
trimmed text starts with `[` and bare semicolons; otherwise run the row
pattern and, on a match, add the cleaned row to the taxa map. -/
def processLine (acc : List Taxon) (i : Nat) (line : List Char) : List Taxon :=
  let trimmed := trimJs line
  if trimmed.isEmpty then acc
  else if trimmed.head? == some '[' then acc
  else if trimmed == [';'] then acc
  else
    match rowMatch line with
    | none => acc
    | some (nm, raw) => addTaxon acc ⟨nm, cleanSeq raw, lineRangeAt i line⟩

/-- `NexusParser.parse`: locate the MATRIX block; with none, the empty
model.  Otherwise iterate the physical lines from the content's start line
to its end line, feeding each through `processLine`. -/
def parseNexus (text : List Char) : List Taxon :=
  match findMatrixM text with
  | none => []
  | some (cs, cap) =>
    let startLine := (posAt text cs).line
    let endLine := (posAt text (cs + cap.length)).line
    let lines := text.splitOn '\n'
    (List.range (endLine + 1 - startLine)).foldl
      (fun acc k =>
        let i := startLine + k
        processLine acc i (lines.getD i [])) []

/-- Message of the unexpected-closing-bracket diagnostic. -/
def closeMsg : String := "Unexpected closing bracket \x27]\x27"

/-- Message of the unclosed-quote diagnostic. -/
def quoteMsg : String := "Unclosed single quote. This may hide other errors."

/-- Message of the unclosed-comment diagnostic. -/
def openMsg : String := "Unclosed comment block \x27[\x27"

/-- The single-character range at offset `i`, built as the source does from
`positionAt(i)` and `translate(0, 1)`. -/
def charRangeAt (text : List Char) (i : Nat) : TextRange :=
  let p := posAt text i
  ⟨p, ⟨p.line, p.character + 1⟩⟩

/-- The unexpected-closing-bracket diagnostics, in encounter order. -/
def closeDiagsOf (text : List Char) : List Diagnostic :=
  (scanComments text).closes.map (fun i => ⟨charRangeAt text i, closeMsg, .error⟩)

/-- The unclosed-comment diagnostics, one per still-open bracket, outermost
first. -/
def openDiagsOf (text : List Char) : List Diagnostic :=
  (scanComments text).stack.map (fun i => ⟨charRangeAt text i, openMsg, .error⟩)

/-- The unclosed-quote diagnostic: from the end-of-document position back
one column to the end-of-document position, with Error severity. -/
def quoteDiagOf (text : List Char) : Diagnostic :=
  ⟨⟨⟨(posAt text text.length).line, (posAt text text.length).character - 1⟩,
    posAt text text.length⟩, quoteMsg, .error⟩

/-- `validateComments`: the bracket/quote balance diagnostics of one scan.
When the quote flag is still set and the end-of-document position sits at
column zero, the host position constructor rejects the negative column
produced by `translate(0, -1)` and the pass faults. -/
def validateComments (text : List Char) : Except String (List Diagnostic) :=
  if (scanComments text).inQuote then
    if (posAt text text.length).character = 0 then
      .error "Illegal argument: character must be non-negative"
    else .ok (closeDiagsOf text ++ [quoteDiagOf text] ++ openDiagsOf text)
  else .ok (closeDiagsOf text ++ openDiagsOf text)

/-- The range of a header regex match, `positionAt` at both match ends. -/
def mkRangeFromMatch (text : List Char) (idx len : Nat) : TextRange :=
  ⟨posAt text idx, posAt text (idx + len)⟩

/-- Message of the NTAX mismatch diagnostic. -/
def ntaxMsg (v actual : Nat) : String :=
  "Mismatch: NTAX=" ++ toString v ++ " but MATRIX has " ++ toString actual ++ " taxa."

/-- Message of the NCHAR mismatch diagnostic. -/
def ncharMsg (v maxLen : Nat) : String :=
  "Mismatch: NCHAR=" ++ toString v ++ " but the longest sequence is " ++
    toString maxLen ++ "."

/-- Message of the per-taxon length mismatch warning. -/
def taxonMsg (len v : Nat) : String :=
  "Sequence length (" ++ toString len ++ ") does not match NCHAR (" ++
    toString v ++ ")."

/-- Step 3 of the validator: with a declared NTAX differing from the parsed
taxa count, one Error anchored at the declaration. -/
def ntaxCheck (text : List Char) (m : Option (Nat × Nat × Nat)) (actual : Nat) :
    List Diagnostic :=
  match m with
  | none => []
  | some (i, l, v) =>
    if actual = v then []
    else [⟨mkRangeFromMatch text i l, ntaxMsg v actual, .error⟩]

/-- Step 4 of the validator: with a declared NCHAR differing from the
longest parsed sequence, one Error anchored at the declaration. -/
def ncharCheck (text : List Char) (m : Option (Nat × Nat × Nat)) (maxLen : Nat) :
    List Diagnostic :=
  match m with
  | none => []
  | some (i, l, v) =>
    if maxLen = v then []
    else [⟨mkRangeFromMatch text i l, ncharMsg v maxLen, .error⟩]

/-- Step 5 of the validator: with a declared NCHAR, one Warning per taxon
whose sequence length differs from it, anchored at the taxon's stored
line range, in taxa-map order. -/
def taxonCheck (m : Option (Nat × Nat × Nat)) (taxa : List Taxon) :
    List Diagnostic :=
  match m with
  | none => []
  | some (_, _, v) =>
    taxa.filterMap (fun t =>
      if t.bases.length = v then none
      else some ⟨t.lineRange, taxonMsg t.bases.length v, .warning⟩)

/-- The NTAX cross-check diagnostics of a document. -/
def ntaxDiags (text : List Char) : List Diagnostic :=
  ntaxCheck text (findNtaxM text) (parseNexus text).length

/-- The NCHAR cross-check diagnostics of a document. -/
def ncharDiags (text : List Char) : List Diagnostic :=
  ncharCheck text (findNcharM text) (maxSeqLen (parseNexus text))

/-- The per-taxon length warnings of a document. -/
def taxonDiags (text : List Char) : List Diagnostic :=
  taxonCheck (findNcharM text) (parseNexus text)

/-- `validateNexus`: the complete ordered diagnostic list of one validation
pass — the scanner's structural diagnostics, then the NTAX check, then the
NCHAR check, then the per-taxon warnings, exactly in push order.  A fault
from the scanner aborts the pass before any list is published. -/
def validateNexus (text : List Char) : Except String (List Diagnostic) :=
  match validateComments text with
  | .error e => .error e
  | .ok cds => .ok (cds ++ ntaxDiags text ++ ncharDiags text ++ taxonDiags text)

/-- Lookup in the taxa map: the first entry carrying the given name. -/
def lookupTaxon (taxa : List Taxon) (nm : List Char) : Option Taxon :=
  taxa.find? (fun u => u.name == nm)

/-- A diagnostic of the structural family produced by the scanner. -/
def structuralKind (x : Diagnostic) : Prop :=
  x.message = closeMsg ∨ x.message = quoteMsg ∨ x.message = openMsg

/-- A diagnostic of the NTAX count-mismatch family. -/
def ntaxKind (x : Diagnostic) : Prop :=
  ∃ u v, x.message = ntaxMsg u v ∧ x.severity = .error

/-- A diagnostic of the NCHAR count-mismatch family. -/
def ncharKind (x : Diagnostic) : Prop :=
  ∃ u v, x.message = ncharMsg u v ∧ x.severity = .error

/-- A diagnostic of the per-taxon length-warning family. -/
def taxonWarnKind (x : Diagnostic) : Prop :=
  ∃ u v, x.message = taxonMsg u v ∧ x.severity = .warning

section Lemmas

variable {α β : Type}

theorem all_filter_self (l : List α) (p : α → Bool) :
    (l.filter p).all p = true := by
  induction l with
  | nil => rfl
  | cons a t ih =>
    by_cases h : p a = true
    · simp [List.filter_cons, h, ih]
    · simp [List.filter_cons, h, ih]

theorem filter_map_of_false (l : List α) (f : α → β) (p : β → Bool)
    (h : ∀ a, p (f a) = false) : (l.map f).filter p = [] := by
  induction l with
  | nil => rfl
  | cons a t ih => simp [List.filter_cons, h a, ih]

theorem scan_nil_inQuote : (scanComments ([] : List Char)).inQuote = false := rfl

theorem inQuote_ne_nil {text : List Char}
    (h : (scanComments text).inQuote = true) : text ≠ [] := by
  intro he
  rw [he] at h
  exact Bool.false_ne_true (scan_nil_inQuote ▸ h)

theorem posAt_end_concat (xs : List Char) (c : Char) (hc : c ≠ '\n') :
    posAt (xs ++ [c]) (xs ++ [c]).length =
      ⟨xs.count '\n', (xs.reverse.takeWhile (fun c => !(c == '\n'))).length + 1⟩ := by
  have h1 : (xs ++ [c]).count '\n' = xs.count '\n' := by
    rw [List.count_append]
    have : List.count '\n' [c] = 0 := by
      rw [List.count_eq_zero]
      simp [Ne.symm hc]
    omega
  have h2 : (xs ++ [c]).reverse.takeWhile (fun c => !(c == '\n')) =
      c :: xs.reverse.takeWhile (fun c => !(c == '\n')) := by
    rw [List.reverse_append]
    simp only [List.reverse_singleton, List.singleton_append]
    rw [List.takeWhile_cons_of_pos (by simpa using hc)]
  unfold posAt
  rw [List.take_length, h1, h2]
  simp

theorem posAt_pred_concat (xs : List Char) (c : Char) (hc : c ≠ '\n') :
    posAt (xs ++ [c]) ((xs ++ [c]).length - 1) =
      ⟨(posAt (xs ++ [c]) (xs ++ [c]).length).line,
       (posAt (xs ++ [c]) (xs ++ [c]).length).character - 1⟩ := by
  rw [posAt_end_concat xs c hc]
  have hl : (xs ++ [c]).length - 1 = xs.length := by simp
  unfold posAt
  rw [hl, List.take_left]
  simp

theorem all_filter_of_all (l : List α) (p q : α → Bool) (h : l.all q = true) :
    (l.filter p).all q = true := by
  rw [List.all_eq_true] at h ⊢
  exact fun x hx => h x (List.mem_of_mem_filter hx)

theorem cleanGo_no_brackets (s : List Char) : ∀ stack : Nat,
    s.all (fun c => !(c == '\x27')) = true →
    (cleanGo s false stack).all (fun c => !(c == '[') && !(c == ']')) = true := by
  induction s with
  | nil => intro stack _; rfl
  | cons c rest ih =>
    intro stack h
    rw [List.all_cons, Bool.and_eq_true] at h
    obtain ⟨hc, hrest⟩ := h
    have hcq : ¬(c = '\x27') := by simpa using hc
    unfold cleanGo
    rw [if_neg hcq]
    simp only [Bool.false_eq_true, if_false]
    by_cases hb1 : c = '['
    · rw [if_pos hb1]
      exact ih (stack + 1) hrest
    · rw [if_neg hb1]
      by_cases hb2 : c = ']'
      · rw [if_pos hb2]
        exact ih (stack - 1) hrest
      · rw [if_neg hb2]
        by_cases hst : stack = 0
        · rw [if_pos hst, List.all_cons, Bool.and_eq_true]
          refine ⟨by simp [hb1, hb2], ih stack hrest⟩
        · rw [if_neg hst]
          exact ih stack hrest

theorem find?_map_upd (t : Taxon) :
    ∀ (taxa : List Taxon) (u : Taxon),
    taxa.find? (fun v => v.name == t.name) = some u →
    (taxa.map (fun v =>
        if v.name == t.name then (⟨v.name, v.bases ++ t.bases, v.lineRange⟩ : Taxon)
        else v)).find? (fun v => v.name == t.name) =
      some ⟨u.name, u.bases ++ t.bases, u.lineRange⟩ := by
  intro taxa
  induction taxa with
  | nil => intro u h; simp [List.find?] at h
  | cons v rest ih =>
    intro u h
    by_cases hv : (v.name == t.name) = true
    · rw [List.find?_cons_of_pos (p := fun w : Taxon => w.name == t.name) _ hv] at h
      injection h with h
      subst h
      rw [List.map_cons, if_pos hv]
      exact List.find?_cons_of_pos (p := fun w : Taxon => w.name == t.name) _ hv
    · rw [List.find?_cons_of_neg (p := fun w : Taxon => w.name == t.name) _ (by simpa using hv)] at h
      rw [List.map_cons, if_neg hv]
      rw [List.find?_cons_of_neg (p := fun w : Taxon => w.name == t.name) _ (by simpa using hv)]
      exact ih u h

theorem validateComments_structural {text : List Char} {ds : List Diagnostic}
    (h : validateComments text = .ok ds) : ∀ x ∈ ds, structuralKind x := by
  unfold validateComments at h
  split at h
  · split at h
    · cases h
    · injection h with h
      subst h
      intro x hx
      rcases List.mem_append.mp hx with hx1 | hx2
      · rcases List.mem_append.mp hx1 with hxa | hxb
        · obtain ⟨i, _, rfl⟩ := List.mem_map.mp hxa
          exact Or.inl rfl
        · rw [List.mem_singleton.mp hxb]
          exact Or.inr (Or.inl rfl)
      · obtain ⟨i, _, rfl⟩ := List.mem_map.mp hx2
        exact Or.inr (Or.inr rfl)
  · injection h with h
    subst h
    intro x hx
    rcases List.mem_append.mp hx with hx1 | hx2
    · obtain ⟨i, _, rfl⟩ := List.mem_map.mp hx1
      exact Or.inl rfl
    · obtain ⟨i, _, rfl⟩ := List.mem_map.mp hx2
      exact Or.inr (Or.inr rfl)

theorem ntaxDiags_kind {text : List Char} {x : Diagnostic}
    (hx : x ∈ ntaxDiags text) : ntaxKind x := by
  unfold ntaxDiags ntaxCheck at hx
  split at hx
  · cases hx
  · split at hx
    · cases hx
    · rw [List.mem_singleton.mp hx]
      exact ⟨_, _, rfl, rfl⟩

theorem ntaxDiags_len (text : List Char) : (ntaxDiags text).length ≤ 1 := by
  unfold ntaxDiags ntaxCheck
  split
  · simp
  · split
    · simp
    · simp

theorem ncharDiags_kind {text : List Char} {x : Diagnostic}
    (hx : x ∈ ncharDiags text) : ncharKind x := by
  unfold ncharDiags ncharCheck at hx
  split at hx
  · cases hx
  · split at hx
    · cases hx
    · rw [List.mem_singleton.mp hx]
      exact ⟨_, _, rfl, rfl⟩

theorem ncharDiags_len (text : List Char) : (ncharDiags text).length ≤ 1 := by
  unfold ncharDiags ncharCheck
  split
  · simp
  · split
    · simp
    · simp

theorem taxonDiags_kind {text : List Char} {x : Diagnostic}
    (hx : x ∈ taxonDiags text) : taxonWarnKind x := by
  unfold taxonDiags taxonCheck at hx
  split at hx
  · cases hx
  · obtain ⟨t, _, ht⟩ := List.mem_filterMap.mp hx
    split at ht
    · cases ht
    · injection ht with ht
      rw [← ht]
      exact ⟨_, _, rfl, rfl⟩

end Lemmas

/-- C1 (counterexample): on the one-character document consisting of a
single opening quote, the quote state is open at end of document and the
scanner emits its unclosed-quote diagnostic with Error severity — not the
Warning severity the claim states. -/
theorem c1_unclosed_quote_severity_cex :
    validateComments "\x27".toList =
      .ok [⟨⟨⟨0, 0⟩, ⟨0, 1⟩⟩, quoteMsg, Severity.error⟩] ∧
    Severity.error ≠ Severity.warning :=
  ⟨rfl, by decide⟩

/-- C1 (amended): for every document whose quote state is still open at end
of document and whose last character is not a line feed, the scan succeeds
and emits exactly one unclosed-quote diagnostic, of Error severity,
anchored at the last character of the document (the one-character range
from offset length−1 to the document end).  (When the document ends with a
line feed the end position has column zero and the host position
constructor faults instead, so no diagnostics are produced at all.) -/
theorem c1_unclosed_quote_amended (text : List Char)
    (hq : (scanComments text).inQuote = true)
    (hl : text.getLast? ≠ some '\n') :
    ∃ ds, validateComments text = .ok ds ∧
      ds.filter (fun d => d.message == quoteMsg) =
        [⟨⟨posAt text (text.length - 1), posAt text text.length⟩,
          quoteMsg, Severity.error⟩] := by
  obtain ⟨xs, c, rfl⟩ : ∃ xs c, text = xs ++ [c] := by
    rcases List.eq_nil_or_concat text with h | ⟨xs, c, h⟩
    · exact absurd h (inQuote_ne_nil hq)
    · exact ⟨xs, c, by rw [h, List.concat_eq_append]⟩
  have hc : c ≠ '\n' := by
    intro hcc
    exact hl (by rw [List.getLast?_concat, hcc])
  have hch : (posAt (xs ++ [c]) (xs ++ [c]).length).character ≠ 0 := by
    rw [posAt_end_concat xs c hc]
    simp
  refine ⟨closeDiagsOf (xs ++ [c]) ++ [quoteDiagOf (xs ++ [c])] ++
    openDiagsOf (xs ++ [c]), ?_, ?_⟩
  · unfold validateComments
    rw [if_pos hq, if_neg hch]
  · rw [List.filter_append, List.filter_append]
    have h1 : List.filter (fun d => d.message == quoteMsg)
        (closeDiagsOf (xs ++ [c])) = [] := by
      unfold closeDiagsOf
      exact filter_map_of_false _ _ _
        (fun i => (by decide : (closeMsg == quoteMsg) = false))
    have h2 : List.filter (fun d => d.message == quoteMsg)
        (openDiagsOf (xs ++ [c])) = [] := by
      unfold openDiagsOf
      exact filter_map_of_false _ _ _
        (fun i => (by decide : (openMsg == quoteMsg) = false))
    have hqq : (fun d => d.message == quoteMsg) (quoteDiagOf (xs ++ [c])) = true := by
      simp [quoteDiagOf]
    rw [h1, h2, List.filter_cons, if_pos hqq]
    simp only [List.filter_nil, List.nil_append, List.append_nil]
    rw [posAt_pred_concat xs c hc]
    rfl

/-- C1 (witness): the amended theorem applied to the single-quote document. -/
theorem c1_unclosed_quote_witness :
    ∃ ds, validateComments "\x27".toList = .ok ds ∧
      ds.filter (fun d => d.message == quoteMsg) =
        [⟨⟨posAt "\x27".toList ("\x27".toList.length - 1),
           posAt "\x27".toList "\x27".toList.length⟩,
          quoteMsg, Severity.error⟩] :=
  c1_unclosed_quote_amended _ (by decide) (by decide)

/-- C2 (counterexample): the cleaning pass does not remove structural quote
delimiters — cleaning the quoted label fragment leaves both delimiting
quotes in the output. -/
theorem c2_clean_keeps_quote_delims_cex :
    cleanSeq "\x27A\x27".toList = "\x27A\x27".toList ∧
    '\x27' ∈ cleanSeq "\x27A\x27".toList := by
  decide

/-- C2 (amended): the cleaning pass removes all comment spans and all
whitespace, but quote delimiters are appended to the output whenever the
comment depth is zero; an escaped quote inside a quoted label does not
toggle quote state and is preserved as exactly one literal quote.  The
whitespace part is proved for every input; the comment-removal,
escaped-quote and non-toggling behaviours are exhibited on the spec's own
examples (the round-trip string, a label with an escaped quote, and an
escaped quote followed by an in-quote bracket with a genuine comment after
the label). -/
theorem c2_clean_amended :
    (∀ s : List Char, (cleanSeq s).all (fun c => !isJsSpace c) = true) ∧
    cleanSeq "AC[ comment ]GT  TT".toList = "ACGTTT".toList ∧
    cleanSeq "\x27a\x27\x27b\x27".toList = "\x27a\x27b\x27".toList ∧
    cleanSeq "\x27a\x27\x27[b\x27c[d]".toList = "\x27a\x27[b\x27c".toList := by
  refine ⟨fun s => all_filter_self _ _, by decide, by decide, by decide⟩

/-- C3 (counterexample): a document consisting only of the declaration
`NTAX=3` has no MATRIX block, yet validation emits the taxa-count
mismatch Error (3 versus 0) — the cross-check is not skipped. -/
theorem c3_no_matrix_checks_cex :
    findMatrixM "NTAX=3".toList = none ∧
    validateNexus "NTAX=3".toList =
      .ok [⟨⟨⟨0, 0⟩, ⟨0, 6⟩⟩, ntaxMsg 3 0, Severity.error⟩] :=
  ⟨rfl, rfl⟩

/-- C3 (amended): with no MATRIX block the parser does return the empty
Matrix Model, but the NTAX/NCHAR cross-checks still run against its zero
counts: whenever an NTAX declaration with a nonzero value is present, the
diagnostic list of a successful pass contains the taxa-count mismatch
Error (declared versus 0), anchored at the declaration. -/
theorem c3_no_matrix_amended (text : List Char) (i l n : Nat)
    (cds : List Diagnostic)
    (hm : findMatrixM text = none)
    (ht : findNtaxM text = some (i, l, n))
    (hv : validateComments text = .ok cds) :
    parseNexus text = [] ∧
    (n ≠ 0 → ∃ ds, validateNexus text = .ok ds ∧
      (⟨mkRangeFromMatch text i l, ntaxMsg n 0, Severity.error⟩ : Diagnostic) ∈ ds) := by
  have hp : parseNexus text = [] := by
    unfold parseNexus
    rw [hm]
  refine ⟨hp, fun hn => ?_⟩
  refine ⟨cds ++ ntaxDiags text ++ ncharDiags text ++ taxonDiags text, ?_, ?_⟩
  · unfold validateNexus
    rw [hv]
  · have hd : ntaxDiags text =
        [⟨mkRangeFromMatch text i l, ntaxMsg n 0, Severity.error⟩] := by
      unfold ntaxDiags ntaxCheck
      rw [ht, hp]
      simp only [List.length_nil]
      rw [if_neg (fun h0 => hn h0.symm)]
    simp [hd]

/-- C3 (witness): the amended theorem applied to the `NTAX=3` document. -/
theorem c3_no_matrix_witness :
    parseNexus "NTAX=3".toList = [] ∧
    ((3 : Nat) ≠ 0 → ∃ ds, validateNexus "NTAX=3".toList = .ok ds ∧
      (⟨mkRangeFromMatch "NTAX=3".toList 0 6, ntaxMsg 3 0,
        Severity.error⟩ : Diagnostic) ∈ ds) :=
  c3_no_matrix_amended _ 0 6 3 [] rfl rfl rfl

/-- C4 (counterexample): in a document whose MATRIX block names taxon `A`
in two row-groups (lines 1 and 2), the per-taxon length Warning is
anchored at line 1 — the range of the first matching row-group — which
differs from line 2's row range, the range of the most recent (last)
matching row-group that the claim asserts. -/
theorem c4_range_last_group_cex :
    validateNexus "NCHAR=5 MATRIX\nA ACGT\nA TTTT\n;".toList =
      .ok [⟨⟨⟨0, 0⟩, ⟨0, 7⟩⟩, ncharMsg 5 8, Severity.error⟩,
           ⟨⟨⟨1, 0⟩, ⟨1, 6⟩⟩, taxonMsg 8 5, Severity.warning⟩] ∧
    lineRangeAt 2 "A TTTT".toList = ⟨⟨2, 0⟩, ⟨2, 6⟩⟩ ∧
    (⟨⟨1, 0⟩, ⟨1, 6⟩⟩ : TextRange) ≠ ⟨⟨2, 0⟩, ⟨2, 6⟩⟩ :=
  ⟨rfl, rfl, by decide⟩

/-- C4 (amended): appending a later row-group for an already-present taxon
name extends its sequence but never updates its stored line range, so the
per-taxon Warning stays anchored at the first matching row-group's range:
for any taxa map in which the incoming taxon's name is already bound, the
entry after `addTaxon` keeps the old range and carries the concatenated
sequence. -/
theorem c4_range_first_group_amended (taxa : List Taxon) (t u : Taxon)
    (h : lookupTaxon taxa t.name = some u) :
    lookupTaxon (addTaxon taxa t) t.name =
      some ⟨u.name, u.bases ++ t.bases, u.lineRange⟩ := by
  have hmem := List.mem_of_find?_eq_some h
  have hp := List.find?_some h
  have hany : taxa.any (fun v => v.name == t.name) = true :=
    List.any_eq_true.mpr ⟨u, hmem, hp⟩
  unfold addTaxon lookupTaxon
  rw [if_pos hany]
  exact find?_map_upd t taxa u h

/-- C4 (witness): the amended theorem on the concrete interleaved pair of
rows for taxon `A`; the stored range stays that of line 1. -/
theorem c4_range_first_group_witness :
    lookupTaxon
      (addTaxon [⟨"A".toList, "ACGT".toList, ⟨⟨1, 0⟩, ⟨1, 6⟩⟩⟩]
        ⟨"A".toList, "TTTT".toList, ⟨⟨2, 0⟩, ⟨2, 6⟩⟩⟩) "A".toList =
      some ⟨"A".toList, "ACGTTTTT".toList, ⟨⟨1, 0⟩, ⟨1, 6⟩⟩⟩ :=
  c4_range_first_group_amended
    [⟨"A".toList, "ACGT".toList, ⟨⟨1, 0⟩, ⟨1, 6⟩⟩⟩]
    ⟨"A".toList, "TTTT".toList, ⟨⟨2, 0⟩, ⟨2, 6⟩⟩⟩
    ⟨"A".toList, "ACGT".toList, ⟨⟨1, 0⟩, ⟨1, 6⟩⟩⟩
    rfl

/-- C5: parsing a MATRIX block whose two row-groups both name taxon `A`
with partial sequences `ACGT` then `TTTT` yields a single entry for `A`
whose sequence is the row-order concatenation `ACGTTTTT` of length 8. -/
theorem c5_interleaved_concat :
    parseNexus "MATRIX\nA ACGT\nA TTTT\n;".toList =
      [⟨"A".toList, "ACGTTTTT".toList, ⟨⟨1, 0⟩, ⟨1, 6⟩⟩⟩] ∧
    (parseNexus "MATRIX\nA ACGT\nA TTTT\n;".toList).map
      (fun t => t.bases.length) = [8] := by
  decide

/-- C6: scanning the fully balanced nested text produces zero diagnostics,
while the text with one extra opening bracket produces exactly one
unclosed-comment diagnostic, anchored at offset 0 — the outermost (first)
opening bracket. -/
theorem c6_nested_comments :
    validateComments "[[[ ]]]".toList = .ok [] ∧
    validateComments "[[[ ]]".toList =
      .ok [⟨charRangeAt "[[[ ]]".toList 0, openMsg, Severity.error⟩] ∧
    charRangeAt "[[[ ]]".toList 0 = ⟨⟨0, 0⟩, ⟨0, 1⟩⟩ :=
  ⟨rfl, rfl, rfl⟩

/-- C7: for every document whose NTAX declaration captures 3, whose parsed
matrix has exactly 2 taxa, with no NCHAR declaration and a clean bracket
and quote scan, validation yields exactly one diagnostic: an Error whose
message mentions both 3 and 2, anchored at the NTAX declaration's range. -/
theorem c7_ntax_mismatch (text : List Char) (i l : Nat)
    (ht : findNtaxM text = some (i, l, 3))
    (hp : (parseNexus text).length = 2)
    (hc : findNcharM text = none)
    (hv : validateComments text = .ok []) :
    validateNexus text =
      .ok [⟨mkRangeFromMatch text i l, ntaxMsg 3 2, Severity.error⟩] ∧
    ntaxMsg 3 2 = "Mismatch: NTAX=3 but MATRIX has 2 taxa." ∧
    '3' ∈ (ntaxMsg 3 2).toList ∧ '2' ∈ (ntaxMsg 3 2).toList := by
  refine ⟨?_, by decide, by decide, by decide⟩
  unfold validateNexus
  rw [hv]
  have h1 : ntaxDiags text =
      [⟨mkRangeFromMatch text i l, ntaxMsg 3 2, Severity.error⟩] := by
    simp [ntaxDiags, ntaxCheck, ht, hp]
  have h2 : ncharDiags text = [] := by
    simp [ncharDiags, ncharCheck, hc]
  have h3 : taxonDiags text = [] := by
    simp [taxonDiags, taxonCheck, hc]
  rw [h1, h2, h3]
  simp

/-- C7 (witness): the theorem applied to a concrete document declaring
`NTAX=3` over a two-row MATRIX block. -/
theorem c7_ntax_mismatch_witness :
    validateNexus "NTAX=3 MATRIX\nA ACGT\nB ACGT\n;".toList =
      .ok [⟨mkRangeFromMatch "NTAX=3 MATRIX\nA ACGT\nB ACGT\n;".toList 0 6,
            ntaxMsg 3 2, Severity.error⟩] ∧
    ntaxMsg 3 2 = "Mismatch: NTAX=3 but MATRIX has 2 taxa." ∧
    '3' ∈ (ntaxMsg 3 2).toList ∧ '2' ∈ (ntaxMsg 3 2).toList :=
  c7_ntax_mismatch _ 0 6 rfl rfl rfl rfl

/-- C8: validation is deterministic — the diagnostic outcome is a pure
function of the document text alone (the embedding carries no other state,
mirroring the source, whose pass reads only the text snapshot and
per-pass locals), so two passes over equal texts agree. -/
theorem c8_deterministic (t1 t2 : List Char) (h : t1 = t2) :
    validateNexus t1 = validateNexus t2 := by
  rw [h]

/-- C8 (witness): two passes over one concrete document agree. -/
theorem c8_deterministic_witness :
    validateNexus "NTAX=3 MATRIX\nA ACGT\nB ACGT\n;".toList =
      validateNexus "NTAX=3 MATRIX\nA ACGT\nB ACGT\n;".toList :=
  c8_deterministic _ _ rfl

/-- C9: every successful validation pass's diagnostic list decomposes, in
order, into the scanner's structural diagnostics, then at most one NTAX
mismatch Error, then at most one NCHAR mismatch Error, then the per-taxon
length Warnings. -/
theorem c9_diag_order (text : List Char) (ds : List Diagnostic)
    (h : validateNexus text = .ok ds) :
    ∃ a b c d, ds = a ++ b ++ c ++ d ∧
      (∀ x ∈ a, structuralKind x) ∧
      (∀ x ∈ b, ntaxKind x) ∧ b.length ≤ 1 ∧
      (∀ x ∈ c, ncharKind x) ∧ c.length ≤ 1 ∧
      (∀ x ∈ d, taxonWarnKind x) := by
  unfold validateNexus at h
  cases hv : validateComments text with
  | error e => rw [hv] at h; cases h
  | ok cds =>
    rw [hv] at h
    injection h with h
    refine ⟨cds, ntaxDiags text, ncharDiags text, taxonDiags text, h.symm,
      ?_, ?_, ?_, ?_, ?_, ?_⟩
    · exact validateComments_structural hv
    · exact fun x hx => ntaxDiags_kind hx
    · exact ntaxDiags_len text
    · exact fun x hx => ncharDiags_kind hx
    · exact ncharDiags_len text
    · exact fun x hx => taxonDiags_kind hx

/-- C9 (witness): the decomposition on a concrete document that produces
all four diagnostic families. -/
theorem c9_diag_order_witness :
    ∃ a b c d,
      ([⟨⟨⟨0, 0⟩, ⟨0, 1⟩⟩, closeMsg, Severity.error⟩,
        ⟨⟨⟨0, 2⟩, ⟨0, 8⟩⟩, ntaxMsg 3 1, Severity.error⟩,
        ⟨⟨⟨0, 9⟩, ⟨0, 16⟩⟩, ncharMsg 5 4, Severity.error⟩,
        ⟨⟨⟨1, 0⟩, ⟨1, 6⟩⟩, taxonMsg 4 5, Severity.warning⟩] :
        List Diagnostic) = a ++ b ++ c ++ d ∧
      (∀ x ∈ a, structuralKind x) ∧
      (∀ x ∈ b, ntaxKind x) ∧ b.length ≤ 1 ∧
      (∀ x ∈ c, ncharKind x) ∧ c.length ≤ 1 ∧
      (∀ x ∈ d, taxonWarnKind x) :=
  c9_diag_order "] NTAX=3 NCHAR=5 MATRIX\nA ACGT\n;".toList _ rfl

/-- C10 (counterexample): a bracket inside a quoted label survives into
the cleaner's output — `_clean` of a quoted bracket keeps the `[`, so the
output is not bracket-free on all inputs. -/
theorem c10_clean_bracket_cex :
    cleanSeq "\x27[\x27".toList = "\x27[\x27".toList ∧
    '[' ∈ cleanSeq "\x27[\x27".toList := by
  decide

/-- C10 (amended): the cleaning pass is total (it is a function) and its
output never contains whitespace; on every input without quote characters
the output contains no `[` and no `]` (brackets inside quoted labels are
literal data and are preserved).  In particular all text inside or after
an unclosed `[` is dropped and a stray `]` at depth zero is dropped
without effect, exhibited on concrete inputs. -/
theorem c10_clean_amended :
    (∀ s : List Char,
      (cleanSeq s).all (fun c => !isJsSpace c) = true ∧
      (s.all (fun c => !(c == '\x27')) = true →
        (cleanSeq s).all (fun c => !(c == '[') && !(c == ']')) = true)) ∧
    cleanSeq "]abc".toList = "abc".toList ∧
    cleanSeq "a[bc d".toList = ['a'] := by
  refine ⟨fun s => ⟨all_filter_self _ _, fun h => ?_⟩, by decide, by decide⟩
  unfold cleanSeq
  exact all_filter_of_all _ _ _ (cleanGo_no_brackets s 0 h)

/-- C10 (witness): the amended properties on a concrete quote-free input
containing a comment, whitespace and data. -/
theorem c10_clean_witness :
    (cleanSeq "a[b ]c x".toList).all (fun c => !isJsSpace c) = true ∧
    (cleanSeq "a[b ]c x".toList).all (fun c => !(c == '[') && !(c == ']')) = true :=
  ⟨(c10_clean_amended.1 _).1, (c10_clean_amended.1 _).2 (by decide)⟩

end NexusHL
